import Mathlib

/-!
Verification of the frostutil pixel-format conversion and buffer-copy engine.

The definitions below are a shallow embedding of the Go source:
`color.go` (the color/alpha conversion functions), `image.go` (the
image copy functions) and the `Min` helper from `util.go`.

Go `byte` values are modelled as `ℕ`; every Go conversion `byte(x)` is
written `x % 256`.  Go `uint32` arithmetic in these functions never
exceeds `2^32` (all operands are bounded by `0xffff * 0xff`), so
`uint32` expressions are modelled as plain `ℕ` arithmetic.  Go integer
division on the non-negative values appearing here coincides with
`Nat.div`.  A Go runtime panic (division by zero, nil-pointer
dereference) is modelled by an `Option` result being `none`.
-/

namespace Frostutil

/-- Four 8-bit channels, the quadruple `(r, g, b, a)` that the Go color
functions return. -/
structure Rgba where
  r : ℕ
  g : ℕ
  b : ℕ
  a : ℕ
deriving DecidableEq, Repr

/-- `util.go`: `Min` (the generic integer minimum, instantiated at `int`;
the strides passed to it in `image.go` are non-negative). -/
def Min (x y : ℕ) : ℕ :=
  if x < y then x else y

/-- `color.go` `UnmultiplyAlphaBytes`: converts alpha-premultiplied RGBA
bytes to NRGBA bytes.  If alpha is 0 or 0xff the four inputs are returned
unchanged; otherwise each color channel becomes `byte(channel*0xff/alpha)`. -/
def UnmultiplyAlphaBytes (red green blue alpha : ℕ) : Rgba :=
  if alpha ≠ 0 ∧ alpha ≠ 0xff then
    ⟨(red * 0xff / alpha) % 256, (green * 0xff / alpha) % 256,
      (blue * 0xff / alpha) % 256, alpha⟩
  else
    ⟨red, green, blue, alpha⟩

/-- Go standard library `color.NRGBA.RGBA()`: for each color channel `c`,
`c |= c << 8; c *= a; c /= 0xff`, and for alpha `a |= a << 8`.  Returns the
16-bit premultiplied quadruple. -/
def NRGBA_RGBA (red green blue alpha : ℕ) : ℕ × ℕ × ℕ × ℕ :=
  ((red ||| (red <<< 8)) * alpha / 0xff,
   (green ||| (green <<< 8)) * alpha / 0xff,
   (blue ||| (blue <<< 8)) * alpha / 0xff,
   alpha ||| (alpha <<< 8))

/-- `color.go` `MultiplyAlphaBytes`: packs the NRGBA bytes into a
`color.NRGBA`, calls `RGBA()` on it and truncates each 16-bit result with
`byte(x >> 8)`. -/
def MultiplyAlphaBytes (red green blue alpha : ℕ) : Rgba :=
  let q := NRGBA_RGBA red green blue alpha
  ⟨(q.1 >>> 8) % 256, (q.2.1 >>> 8) % 256, (q.2.2.1 >>> 8) % 256,
    (q.2.2.2 >>> 8) % 256⟩

/-- `color.go` `MultiplyAlphaBytesPreserveColors`: like
`MultiplyAlphaBytes` but the four inputs are returned unchanged when alpha
is 0 (preserving the color channels) or 0xff. -/
def MultiplyAlphaBytesPreserveColors (red green blue alpha : ℕ) : Rgba :=
  if alpha ≠ 0 ∧ alpha ≠ 0xff then
    ⟨(((red ||| (red <<< 8)) * alpha / 0xff) >>> 8) % 256,
     (((green ||| (green <<< 8)) * alpha / 0xff) >>> 8) % 256,
     (((blue ||| (blue <<< 8)) * alpha / 0xff) >>> 8) % 256,
     ((alpha ||| (alpha <<< 8)) >>> 8) % 256⟩
  else
    ⟨red, green, blue, alpha⟩

/-- `color.go` `UnmultiplyAlpha`, given the four 16-bit values returned by
`c.RGBA()`.  Its body first computes `a = byte(alpha >> 8)` and, when
`alpha` is neither 0 nor 0xffff, divides each color channel by `uint32(a)`.
When that divisor is zero (any `alpha` in `1..255`) the Go code performs a
`uint32` division by zero and panics at runtime, modelled here by `none`. -/
def UnmultiplyAlpha (red green blue alpha : ℕ) : Option Rgba :=
  let a := (alpha >>> 8) % 256
  if alpha ≠ 0 ∧ alpha ≠ 0xffff then
    if a = 0 then
      none
    else
      some ⟨((red * 0xff / a) >>> 8) % 256, ((green * 0xff / a) >>> 8) % 256,
        ((blue * 0xff / a) >>> 8) % 256, a⟩
  else
    some ⟨(red >>> 8) % 256, (green >>> 8) % 256, (blue >>> 8) % 256, a⟩

/-- The concrete `color.Color` kinds distinguished by the type switch in
`color.go` `ToNRGBA`.  The value and pointer cases of the Go switch have
identical bodies and are collapsed.  `RGBA`, `RGBA64` and unrecognized
implementations all reach the `default` arm, which only uses the color
through `c.RGBA()`; they are represented by `generic` carrying the 16-bit
quadruple that `c.RGBA()` returns. -/
inductive GColor where
  | nrgba (r g b a : ℕ)
  | nrgba64 (r g b a : ℕ)
  | gray (y : ℕ)
  | gray16 (y : ℕ)
  | alpha (a : ℕ)
  | alpha16 (a : ℕ)
  | generic (red green blue alpha : ℕ)

/-- `color.go` `ToNRGBA`: the per-kind dispatch.  The `default` arm calls
`UnmultiplyAlpha`, which can panic (see `UnmultiplyAlpha`), hence the
`Option` result; every recognized arm is total. -/
def ToNRGBA : GColor → Option Rgba
  | .nrgba r g b a => some ⟨r, g, b, a⟩
  | .nrgba64 r g b a =>
      some ⟨(r >>> 8) % 256, (g >>> 8) % 256, (b >>> 8) % 256, (a >>> 8) % 256⟩
  | .gray y => some ⟨y, y, y, 0xff⟩
  | .gray16 y =>
      some ⟨(y >>> 8) % 256, (y >>> 8) % 256, (y >>> 8) % 256, 0xff⟩
  | .alpha a => some ⟨0xff, 0xff, 0xff, a⟩
  | .alpha16 a => some ⟨0xff, 0xff, 0xff, (a >>> 8) % 256⟩
  | .generic red green blue alpha => UnmultiplyAlpha red green blue alpha

/-- Go `copy(dst, src)` on byte slices: copies `min (length dst) (length src)`
bytes from the front of `src` over the front of `dst`, leaving the rest of
`dst` unchanged. -/
def goCopy (dst src : List ℕ) : List ℕ :=
  let n := Min dst.length src.length
  src.take n ++ dst.drop n

/-- One `copy(oPix[oIdx:oIdx+k], iPix[iIdx:iIdx+k])` of `CopyImageLines`,
unrolled byte by byte: for `j < k`, `oPix[oIdx+j] := iPix[iIdx+j]`.
The claims only concern in-bounds copies, where this equals Go `copy`
on the two slices. -/
def copyBytes (oPix : List ℕ) (oIdx : ℕ) (iPix : List ℕ) (iIdx : ℕ) : ℕ → List ℕ
  | 0 => oPix
  | k + 1 => copyBytes (oPix.set oIdx (iPix.getD iIdx 0)) (oIdx + 1) iPix (iIdx + 1) k

/-- The loop of `image.go` `CopyImageLines`:
`for iIdx := 0; iIdx < len(iPix); iIdx += iStride` copying `lower` bytes
per iteration and advancing `oIdx` by `oStride`. -/
def linesGo (oPix : List ℕ) (oStride : ℕ) (iPix : List ℕ)
    (iStride lower oIdx iIdx : ℕ) (h : 0 < iStride) : List ℕ :=
  if _hlt : iIdx < iPix.length then
    linesGo (copyBytes oPix oIdx iPix iIdx lower) oStride iPix iStride lower
      (oIdx + oStride) (iIdx + iStride) h
  else
    oPix
termination_by iPix.length - iIdx
decreasing_by omega

/-- `image.go` `CopyImageLines`: copies pixel data from `iPix` to `oPix`
line by line, `Min oStride iStride` bytes per line.  With `iStride = 0`
and a nonempty `iPix` the Go loop never terminates; that case is outside
every claim and is given the vacuous value `oPix` here. -/
def CopyImageLines (oPix : List ℕ) (oStride : ℕ) (iPix : List ℕ)
    (iStride : ℕ) : List ℕ :=
  if h : 0 < iStride then
    linesGo oPix oStride iPix iStride (Min oStride iStride) 0 0 h
  else
    oPix

/-- The concrete colors that flow between `At` and `Set` during the image
copies: `color.RGBA` values (returned by `(*image.RGBA).At` and by
`(*ebiten.Image).At`), `color.NRGBA` values (returned by
`(*image.NRGBA).At`), and arbitrary other colors, which the destination
setters only use through `c.RGBA()` and which are therefore represented by
that 16-bit quadruple. -/
inductive Colr where
  | rgbaC (r g b a : ℕ)
  | nrgbaC (r g b a : ℕ)
  | genericC (red green blue alpha : ℕ)
deriving DecidableEq, Repr

/-- `c.RGBA()` for a `Colr`: `color.RGBA.RGBA()` widens each byte `v` to
`v | v << 8 = v * 0x101`; `color.NRGBA.RGBA()` premultiplies
(`NRGBA_RGBA`); a generic color reports its stored quadruple. -/
def Colr.rgba16 : Colr → ℕ × ℕ × ℕ × ℕ
  | .rgbaC r g b a => (r * 0x101, g * 0x101, b * 0x101, a * 0x101)
  | .nrgbaC r g b a => NRGBA_RGBA r g b a
  | .genericC red green blue alpha => (red, green, blue, alpha)

/-- Go standard library `color.RGBAModel` conversion, as applied by
`(*image.RGBA).Set`: a `color.RGBA` is stored unchanged, any other color
is stored as `byte(x >> 8)` of each component of `c.RGBA()`. -/
def rgbaModelConvert (c : Colr) : ℕ × ℕ × ℕ × ℕ :=
  match c with
  | .rgbaC r g b a => (r, g, b, a)
  | _ =>
    let q := c.rgba16
    ((q.1 >>> 8) % 256, (q.2.1 >>> 8) % 256, (q.2.2.1 >>> 8) % 256,
      (q.2.2.2 >>> 8) % 256)

/-- Go standard library `color.NRGBAModel` conversion, as applied by
`(*image.NRGBA).Set`: a `color.NRGBA` is stored unchanged; otherwise the
16-bit quadruple of `c.RGBA()` is un-premultiplied, with the color
channels zeroed when the 16-bit alpha is 0. -/
def nrgbaModelConvert (c : Colr) : ℕ × ℕ × ℕ × ℕ :=
  match c with
  | .nrgbaC r g b a => (r, g, b, a)
  | _ =>
    let q := c.rgba16
    if q.2.2.2 = 0xffff then
      ((q.1 >>> 8) % 256, (q.2.1 >>> 8) % 256, (q.2.2.1 >>> 8) % 256, 0xff)
    else if q.2.2.2 = 0 then
      (0, 0, 0, 0)
    else
      (((q.1 * 0xffff / q.2.2.2) >>> 8) % 256,
       ((q.2.1 * 0xffff / q.2.2.2) >>> 8) % 256,
       ((q.2.2.1 * 0xffff / q.2.2.2) >>> 8) % 256,
       (q.2.2.2 >>> 8) % 256)

/-- The pixel-carrying part of a Go `image.RGBA` / `image.NRGBA` struct:
the rectangle `(minX, minY) – (minX+w, minY+h)`, the `Stride`, and the
`Pix` byte buffer. -/
structure RawImg where
  minX : ℤ
  minY : ℤ
  w : ℕ
  h : ℕ
  stride : ℕ
  pix : List ℕ
deriving Repr

/-- The dynamic types an `image.Image` argument can have in `image.go`:
the three concrete kinds with per-pixel write support, the typed nil
`*image.NRGBA` produced by a failed type assertion (whose methods panic),
and any other implementation, characterized by its bounds and its `At`
method.  `ebiten.NewImage` rectangles start at the origin, so an
`*ebiten.Image` carries only its extent and its (premultiplied) pixels. -/
inductive Image where
  | eimg (w h : ℕ) (pix : List ℕ)
  | rgba (im : RawImg)
  | nrgba (im : RawImg)
  | nrgbaNil
  | other (minX minY : ℤ) (w h : ℕ) (atF : ℤ → ℤ → Colr)

/-- Whether the dynamic type is none of `*ebiten.Image`, `*image.RGBA`,
`*image.NRGBA` (the fallthrough arm of the type switches). -/
def Image.isOtherKind : Image → Bool
  | .other .. => true
  | _ => false

/-- `img.Bounds().Min.X`.  (A nil `*image.NRGBA` would panic here; callers
below handle that case before asking for bounds.) -/
def Image.bMinX : Image → ℤ
  | .eimg .. => 0
  | .rgba im => im.minX
  | .nrgba im => im.minX
  | .nrgbaNil => 0
  | .other minX .. => minX

/-- `img.Bounds().Min.Y`. -/
def Image.bMinY : Image → ℤ
  | .eimg .. => 0
  | .rgba im => im.minY
  | .nrgba im => im.minY
  | .nrgbaNil => 0
  | .other _ minY .. => minY

/-- `img.Bounds().Dx()`. -/
def Image.bDx : Image → ℕ
  | .eimg w _ _ => w
  | .rgba im => im.w
  | .nrgba im => im.w
  | .nrgbaNil => 0
  | .other _ _ w _ _ => w

/-- `img.Bounds().Dy()`. -/
def Image.bDy : Image → ℕ
  | .eimg _ h _ => h
  | .rgba im => im.h
  | .nrgba im => im.h
  | .nrgbaNil => 0
  | .other _ _ _ h _ => h

/-- Reads the 4 bytes of a buffer-backed image at `PixOffset(x, y) =
(y-minY)*stride + (x-minX)*4`, after the `Point.In(Rect)` bounds test that
`At` performs (out of bounds yields the zero color). -/
def RawImg.at4 (im : RawImg) (x y : ℤ) : ℕ × ℕ × ℕ × ℕ :=
  if im.minX ≤ x ∧ x < im.minX + im.w ∧ im.minY ≤ y ∧ y < im.minY + im.h then
    let o := ((y - im.minY) * im.stride + (x - im.minX) * 4).toNat
    (im.pix.getD o 0, im.pix.getD (o + 1) 0, im.pix.getD (o + 2) 0,
      im.pix.getD (o + 3) 0)
  else
    (0, 0, 0, 0)

/-- Writes 4 bytes into a buffer-backed image at `PixOffset(x, y)`; like
`Set`, a write outside the rectangle is a no-op. -/
def RawImg.set4 (im : RawImg) (x y : ℤ) (v : ℕ × ℕ × ℕ × ℕ) : RawImg :=
  if im.minX ≤ x ∧ x < im.minX + im.w ∧ im.minY ≤ y ∧ y < im.minY + im.h then
    let o := ((y - im.minY) * im.stride + (x - im.minX) * 4).toNat
    { im with pix := ((((im.pix.set o v.1).set (o + 1) v.2.1).set
        (o + 2) v.2.2.1).set (o + 3) v.2.2.2) }
  else
    im

/-- `iImg.At(x, y)` for each source kind.  `(*image.RGBA).At` returns a
`color.RGBA`, `(*image.NRGBA).At` a `color.NRGBA`, `(*ebiten.Image).At` a
`color.RGBA` read from the premultiplied pixel buffer (extent `w × h` at
the origin), and an arbitrary image returns whatever its own `At` yields.
`At` on the nil `*image.NRGBA` would panic; the copy routines below bail
out (`none`) before ever calling `At` on it, so that arm is dead code. -/
def imgAt (img : Image) (x y : ℤ) : Colr :=
  match img with
  | .rgba im => let v := im.at4 x y; .rgbaC v.1 v.2.1 v.2.2.1 v.2.2.2
  | .nrgba im => let v := im.at4 x y; .nrgbaC v.1 v.2.1 v.2.2.1 v.2.2.2
  | .eimg w h pix =>
    if 0 ≤ x ∧ x < (w : ℤ) ∧ 0 ≤ y ∧ y < (h : ℤ) then
      let o := (y * (4 * w) + x * 4).toNat
      .rgbaC (pix.getD o 0) (pix.getD (o + 1) 0) (pix.getD (o + 2) 0)
        (pix.getD (o + 3) 0)
    else
      .rgbaC 0 0 0 0
  | .nrgbaNil => .rgbaC 0 0 0 0
  | .other _ _ _ _ atF => atF x y

/-- `oImg.Set(x, y, c)` for each destination kind: `(*image.RGBA).Set`
stores `rgbaModelConvert c`, `(*image.NRGBA).Set` stores
`nrgbaModelConvert c`, and `(*ebiten.Image).Set` stores the premultiplied
bytes `byte(x >> 8)` of `c.RGBA()`.  Setting on any other kind does not
occur (the type switches guard it). -/
def imgSet (img : Image) (x y : ℤ) (c : Colr) : Image :=
  match img with
  | .rgba im => .rgba (im.set4 x y (rgbaModelConvert c))
  | .nrgba im => .nrgba (im.set4 x y (nrgbaModelConvert c))
  | .eimg w h pix =>
    if 0 ≤ x ∧ x < (w : ℤ) ∧ 0 ≤ y ∧ y < (h : ℤ) then
      let q := c.rgba16
      let o := (y * (4 * w) + x * 4).toNat
      .eimg w h ((((pix.set o ((q.1 >>> 8) % 256)).set (o + 1)
        ((q.2.1 >>> 8) % 256)).set (o + 2) ((q.2.2.1 >>> 8) % 256)).set
        (o + 3) ((q.2.2.2 >>> 8) % 256))
    else
      .eimg w h pix
  | img => img

/-- The two nested loops shared by the three writable arms of
`SlowImageCopy`: for `y` in `0..height-1` and `x` in `0..width-1`,
`oImg.Set(x, y, iImg.At(x+left, y+top))`. -/
def pixelLoop (dst src : Image) (left top : ℤ) (width height : ℕ) : Image :=
  (List.range height).foldl
    (fun d y =>
      (List.range width).foldl
        (fun d2 x => imgSet d2 (x : ℤ) (y : ℤ) (imgAt src ((x : ℤ) + left) ((y : ℤ) + top)))
        d)
    dst

/-- The error message built by `errors.New` in `SlowImageCopy`. -/
def slowCopyErrMsg : String :=
  "SlowImageCopy only knows how to write to images of type *ebiten.Image, *image.NRGBA, and *image.RGBA. We got a different type instead."

/-- `image.go` `SlowImageCopy`: reads `iImg.Bounds().Min` and
`oImg.Bounds().Dx()/Dy()` (panicking, i.e. `none`, if either image is the
nil `*image.NRGBA`), then dispatches on the destination type: the three
writable kinds run the per-pixel loop and return a nil error; any other
destination is left untouched and a non-nil error is returned. -/
def SlowImageCopy (oImg iImg : Image) : Option (Image × Option String) :=
  match iImg with
  | .nrgbaNil => none
  | _ =>
    match oImg with
    | .nrgbaNil => none
    | .rgba im =>
      some (pixelLoop (.rgba im) iImg iImg.bMinX iImg.bMinY im.w im.h, none)
    | .nrgba im =>
      some (pixelLoop (.nrgba im) iImg iImg.bMinX iImg.bMinY im.w im.h, none)
    | .eimg w h pix =>
      some (pixelLoop (.eimg w h pix) iImg iImg.bMinX iImg.bMinY w h, none)
    | .other minX minY w h atF =>
      some (.other minX minY w h atF, some slowCopyErrMsg)

/-- `image.NewRGBA(image.Rect(0, 0, w, h))` (and `NewNRGBA`): a zeroed
buffer of `4*w*h` bytes with stride `4*w` and origin rectangle. -/
def newRaw (w h : ℕ) : RawImg :=
  ⟨0, 0, w, h, 4 * w, List.replicate (4 * w * h) 0⟩

/-- `image.go` `CopyImage`.  The dimensions come from `img.Bounds()`.
For the three known kinds the pixel data is copied directly (falling back
to `CopyImageLines` when strides differ).  In the final `else` arm the Go
source calls `SlowImageCopy(oImg, iImg)` where `iImg` is the variable
bound by the failed `img.(*image.NRGBA)` type assertion — a typed nil —
so the fallback dereferences a nil pointer and panics (`none`); the
returned error is discarded by `CopyImage` either way.  The `mipmaps`
flag only selects the `Unmanaged` option of the new `*ebiten.Image` and
does not affect pixel content. -/
def CopyImage (img : Image) (_mipmaps : Bool) : Option Image :=
  match img with
  | .eimg w h pix => some (.eimg w h pix)
  | .rgba im =>
    let oImg := newRaw im.w im.h
    if im.stride = oImg.stride then
      some (.rgba { oImg with pix := goCopy oImg.pix im.pix })
    else
      some (.rgba { oImg with pix := CopyImageLines oImg.pix oImg.stride im.pix im.stride })
  | .nrgba im =>
    let oImg := newRaw im.w im.h
    if im.stride = oImg.stride then
      some (.nrgba { oImg with pix := goCopy oImg.pix im.pix })
    else
      some (.nrgba { oImg with pix := CopyImageLines oImg.pix oImg.stride im.pix im.stride })
  | .nrgbaNil => none
  | .other _ _ w h _ =>
    let oImg := Image.rgba (newRaw w h)
    match SlowImageCopy oImg .nrgbaNil with
    | none => none
    | some (res, _err) => some res

/-! ## Arithmetic helper lemmas -/

set_option maxRecDepth 10000 in
theorem lor_double_fin : ∀ q : Fin 256, (q.val ||| (q.val <<< 8)) = 257 * q.val := by decide

/-- For a byte value `q`, the widening `q | (q << 8)` used throughout the
color code equals `257 * q`. -/
theorem lor_double {q : ℕ} (h : q < 256) : q ||| (q <<< 8) = 257 * q :=
  lor_double_fin ⟨q, h⟩

/-- Round-trip accuracy of one color channel: un-premultiplying
`c ≤ a` by `a` and re-premultiplying with the widen/multiply/shift path
lands within 1 of `c`. -/
theorem chan_roundtrip (a c : ℕ) (h0 : 0 < a) (h1 : a < 255) (hc : c ≤ a) :
    ((((c * 0xff / a % 256) ||| ((c * 0xff / a % 256) <<< 8)) * a / 0xff) >>> 8) % 256 ≤ c + 1 ∧
    c ≤ ((((c * 0xff / a % 256) ||| ((c * 0xff / a % 256) <<< 8)) * a / 0xff) >>> 8) % 256 + 1 := by
  have hq0 : c * 0xff / a ≤ 255 := by
    have h255 : c * 255 ≤ a * 255 := Nat.mul_le_mul_right _ hc
    calc c * 0xff / a ≤ a * 255 / a := Nat.div_le_div_right h255
      _ = 255 := Nat.mul_div_cancel_left 255 h0
  have hmod : c * 0xff / a % 256 = c * 0xff / a := Nat.mod_eq_of_lt (by omega)
  rw [hmod, lor_double (by omega)]
  have hkey := Nat.div_add_mod (c * 0xff) a
  have hslt : c * 0xff % a < a := Nat.mod_lt _ h0
  have hm1 : 257 * (c * 0xff / a) * a / 0xff ≤ 257 * a := by
    have hb : 257 * (c * 0xff / a) * a ≤ 257 * 255 * a := by
      have := Nat.mul_le_mul_right a (Nat.mul_le_mul_left 257 hq0)
      omega
    calc 257 * (c * 0xff / a) * a / 0xff ≤ 257 * 255 * a / 0xff := Nat.div_le_div_right hb
      _ = 257 * a := by
        rw [show 257 * 255 * a = 257 * a * 255 by ring]
        exact Nat.mul_div_cancel _ (by norm_num)
  rw [Nat.shiftRight_eq_div_pow]
  have hmod2 : 257 * (c * 0xff / a) * a / 0xff / 2 ^ 8 % 256
      = 257 * (c * 0xff / a) * a / 0xff / 2 ^ 8 := by
    apply Nat.mod_eq_of_lt
    have := Nat.div_le_div_right (c := 2 ^ 8) hm1
    omega
  rw [hmod2, Nat.div_div_eq_div_mul]
  have hP : 257 * (c * 0xff / a) * a = 257 * (a * (c * 0xff / a)) := by ring
  rw [hP]
  generalize hPP : a * (c * 0xff / a) = P at hkey ⊢
  omega

/-- One premultiplied channel is bounded by the alpha that scaled it. -/
theorem chan_le (a c : ℕ) (hc : c < 256) (_ha : a < 256) :
    257 * c * a / 0xff / 2 ^ 8 % 256 ≤ a := by
  have hb : 257 * c * a ≤ 65535 * a := Nat.mul_le_mul_right a (by omega)
  have h2 : (2 : ℕ) ^ 8 = 256 := by norm_num
  rw [h2]
  generalize hK : 257 * c * a = K at hb ⊢
  omega

/-- Dividing the widened byte `257 * x` back down by 256 recovers `x`. -/
theorem double_truncate_id {x : ℕ} (hx : x < 256) : 257 * x / 256 % 256 = x := by
  have hd : 257 * x / 256 = x := by
    rw [show 257 * x = 256 * x + x by ring, Nat.mul_add_div (by norm_num),
      Nat.div_eq_of_lt hx, Nat.add_zero]
  rw [hd, Nat.mod_eq_of_lt hx]

/-- The alpha path of the premultiplication: widening then truncating a
byte alpha is the identity. -/
theorem alpha_widen_id {a : ℕ} (ha : a < 256) :
    ((a ||| (a <<< 8)) >>> 8) % 256 = a := by
  rw [lor_double ha, Nat.shiftRight_eq_div_pow]
  rw [show (2 : ℕ) ^ 8 = 256 by norm_num]
  exact double_truncate_id ha

/-! ## Claim theorems -/

/-- C1: for every `(r, g, b, a)` with `0 < a < 255` and `r, g, b ≤ a`,
`MultiplyAlphaBytesPreserveColors` applied to the result of
`UnmultiplyAlphaBytes r g b a` reproduces the alpha `a` exactly and each
color channel within ±1 of the original. -/
theorem roundtrip_within_one (r g b a : ℕ) (h0 : 0 < a) (h1 : a < 255)
    (hr : r ≤ a) (hg : g ≤ a) (hb : b ≤ a) :
    (MultiplyAlphaBytesPreserveColors (UnmultiplyAlphaBytes r g b a).r
      (UnmultiplyAlphaBytes r g b a).g (UnmultiplyAlphaBytes r g b a).b
      (UnmultiplyAlphaBytes r g b a).a).a = a ∧
    ((MultiplyAlphaBytesPreserveColors (UnmultiplyAlphaBytes r g b a).r
      (UnmultiplyAlphaBytes r g b a).g (UnmultiplyAlphaBytes r g b a).b
      (UnmultiplyAlphaBytes r g b a).a).r ≤ r + 1 ∧
     r ≤ (MultiplyAlphaBytesPreserveColors (UnmultiplyAlphaBytes r g b a).r
      (UnmultiplyAlphaBytes r g b a).g (UnmultiplyAlphaBytes r g b a).b
      (UnmultiplyAlphaBytes r g b a).a).r + 1) ∧
    ((MultiplyAlphaBytesPreserveColors (UnmultiplyAlphaBytes r g b a).r
      (UnmultiplyAlphaBytes r g b a).g (UnmultiplyAlphaBytes r g b a).b
      (UnmultiplyAlphaBytes r g b a).a).g ≤ g + 1 ∧
     g ≤ (MultiplyAlphaBytesPreserveColors (UnmultiplyAlphaBytes r g b a).r
      (UnmultiplyAlphaBytes r g b a).g (UnmultiplyAlphaBytes r g b a).b
      (UnmultiplyAlphaBytes r g b a).a).g + 1) ∧
    ((MultiplyAlphaBytesPreserveColors (UnmultiplyAlphaBytes r g b a).r
      (UnmultiplyAlphaBytes r g b a).g (UnmultiplyAlphaBytes r g b a).b
      (UnmultiplyAlphaBytes r g b a).a).b ≤ b + 1 ∧
     b ≤ (MultiplyAlphaBytesPreserveColors (UnmultiplyAlphaBytes r g b a).r
      (UnmultiplyAlphaBytes r g b a).g (UnmultiplyAlphaBytes r g b a).b
      (UnmultiplyAlphaBytes r g b a).a).b + 1) := by
  have hcond : a ≠ 0 ∧ a ≠ 0xff := ⟨by omega, by omega⟩
  unfold UnmultiplyAlphaBytes
  rw [if_pos hcond]
  dsimp only
  unfold MultiplyAlphaBytesPreserveColors
  rw [if_pos hcond]
  dsimp only
  exact ⟨alpha_widen_id (by omega), chan_roundtrip a r h0 h1 hr,
    chan_roundtrip a g h0 h1 hg, chan_roundtrip a b h0 h1 hb⟩

/-- Witness for C1 at the concrete input `(10, 20, 99, 100)`. -/
theorem roundtrip_within_one_witness :
    (MultiplyAlphaBytesPreserveColors (UnmultiplyAlphaBytes 10 20 99 100).r
      (UnmultiplyAlphaBytes 10 20 99 100).g (UnmultiplyAlphaBytes 10 20 99 100).b
      (UnmultiplyAlphaBytes 10 20 99 100).a).a = 100 ∧
    ((MultiplyAlphaBytesPreserveColors (UnmultiplyAlphaBytes 10 20 99 100).r
      (UnmultiplyAlphaBytes 10 20 99 100).g (UnmultiplyAlphaBytes 10 20 99 100).b
      (UnmultiplyAlphaBytes 10 20 99 100).a).r ≤ 10 + 1 ∧
     10 ≤ (MultiplyAlphaBytesPreserveColors (UnmultiplyAlphaBytes 10 20 99 100).r
      (UnmultiplyAlphaBytes 10 20 99 100).g (UnmultiplyAlphaBytes 10 20 99 100).b
      (UnmultiplyAlphaBytes 10 20 99 100).a).r + 1) ∧
    ((MultiplyAlphaBytesPreserveColors (UnmultiplyAlphaBytes 10 20 99 100).r
      (UnmultiplyAlphaBytes 10 20 99 100).g (UnmultiplyAlphaBytes 10 20 99 100).b
      (UnmultiplyAlphaBytes 10 20 99 100).a).g ≤ 20 + 1 ∧
     20 ≤ (MultiplyAlphaBytesPreserveColors (UnmultiplyAlphaBytes 10 20 99 100).r
      (UnmultiplyAlphaBytes 10 20 99 100).g (UnmultiplyAlphaBytes 10 20 99 100).b
      (UnmultiplyAlphaBytes 10 20 99 100).a).g + 1) ∧
    ((MultiplyAlphaBytesPreserveColors (UnmultiplyAlphaBytes 10 20 99 100).r
      (UnmultiplyAlphaBytes 10 20 99 100).g (UnmultiplyAlphaBytes 10 20 99 100).b
      (UnmultiplyAlphaBytes 10 20 99 100).a).b ≤ 99 + 1 ∧
     99 ≤ (MultiplyAlphaBytesPreserveColors (UnmultiplyAlphaBytes 10 20 99 100).r
      (UnmultiplyAlphaBytes 10 20 99 100).g (UnmultiplyAlphaBytes 10 20 99 100).b
      (UnmultiplyAlphaBytes 10 20 99 100).a).b + 1) :=
  roundtrip_within_one 10 20 99 100 (by decide) (by decide) (by decide)
    (by decide) (by decide)

/-- C2: at zero alpha the color-preserving conversion keeps the color
channels while the legacy `MultiplyAlphaBytes` path zeroes everything. -/
theorem zero_alpha_variants (r g b : ℕ) :
    MultiplyAlphaBytesPreserveColors r g b 0 = ⟨r, g, b, 0⟩ ∧
    MultiplyAlphaBytes r g b 0 = ⟨0, 0, 0, 0⟩ := by
  constructor
  · simp [MultiplyAlphaBytesPreserveColors]
  · simp [MultiplyAlphaBytes, NRGBA_RGBA]

/-- C3: `UnmultiplyAlphaBytes` is the identity at alpha 0 and 255; for
`0 < a < 255` each color channel is `byte(c*255/a)` (truncating division,
wrapped modulo 256, not clamped); and the two concrete vectors from the
spec hold. -/
theorem unmultiplyAlphaBytes_spec :
    (∀ r g b : ℕ, UnmultiplyAlphaBytes r g b 0 = ⟨r, g, b, 0⟩) ∧
    (∀ r g b : ℕ, UnmultiplyAlphaBytes r g b 0xff = ⟨r, g, b, 0xff⟩) ∧
    (∀ r g b a : ℕ, 0 < a → a < 255 →
      UnmultiplyAlphaBytes r g b a =
        ⟨r * 0xff / a % 256, g * 0xff / a % 256, b * 0xff / a % 256, a⟩) ∧
    UnmultiplyAlphaBytes 100 100 100 100 = ⟨255, 255, 255, 100⟩ ∧
    UnmultiplyAlphaBytes 100 100 100 255 = ⟨100, 100, 100, 255⟩ := by
  refine ⟨?_, ?_, ?_, by decide, by decide⟩
  · intro r g b
    simp [UnmultiplyAlphaBytes]
  · intro r g b
    simp [UnmultiplyAlphaBytes]
  · intro r g b a h0 h1
    unfold UnmultiplyAlphaBytes
    rw [if_pos ⟨by omega, by omega⟩]

/-- Witness for C3 at `(200, 0, 0, 100)`: `200*255/100 = 510` wraps to
`254` under byte truncation (no clamping). -/
theorem unmultiplyAlphaBytes_spec_witness :
    UnmultiplyAlphaBytes 200 0 0 100 = ⟨254, 0, 0, 100⟩ := by
  have h := unmultiplyAlphaBytes_spec.2.2.1 200 0 0 100 (by norm_num) (by norm_num)
  exact h.trans (by decide)

/-- C5 (failing input): `UnmultiplyAlpha` on a color whose `RGBA()` query
returns `(0, 0, 0, 100)` — all values inside the 16-bit range, alpha
neither 0 nor 0xffff — divides by `byte(100 >> 8) = 0` and panics;
`ToNRGBA` on such a generic color inherits the panic. -/
theorem unmultiplyAlpha_div_by_zero :
    UnmultiplyAlpha 0 0 0 100 = none ∧ ToNRGBA (.generic 0 0 0 100) = none := by
  decide

/-- C6: for nonzero alpha the color-preserving conversion agrees with the
legacy `MultiplyAlphaBytes` path, and both map `(51, 153, 204, 85)` to
`(17, 51, 68, 85)`. -/
theorem preserve_eq_multiply (r g b a : ℕ) (hr : r < 256) (hg : g < 256)
    (hb : b < 256) (ha : a < 256) (ha0 : a ≠ 0) :
    MultiplyAlphaBytesPreserveColors r g b a = MultiplyAlphaBytes r g b a ∧
    MultiplyAlphaBytesPreserveColors 51 153 204 85 = ⟨17, 51, 68, 85⟩ ∧
    MultiplyAlphaBytes 51 153 204 85 = ⟨17, 51, 68, 85⟩ := by
  refine ⟨?_, by decide, by decide⟩
  by_cases h255 : a = 0xff
  · subst h255
    unfold MultiplyAlphaBytesPreserveColors MultiplyAlphaBytes NRGBA_RGBA
    rw [if_neg (by simp)]
    dsimp only
    rw [lor_double hr, lor_double hg, lor_double hb,
      lor_double (show (0xff : ℕ) < 256 by norm_num)]
    simp only [Nat.shiftRight_eq_div_pow, show (2 : ℕ) ^ 8 = 256 from by norm_num]
    have hc : ∀ x : ℕ, x < 256 → 257 * x * 0xff / 0xff / 256 % 256 = x := by
      intro x hx
      rw [Nat.mul_div_cancel _ (by norm_num : 0 < 0xff)]
      exact double_truncate_id hx
    rw [hc r hr, hc g hg, hc b hb, show 257 * 0xff / 256 % 256 = 0xff by norm_num]
  · unfold MultiplyAlphaBytesPreserveColors MultiplyAlphaBytes NRGBA_RGBA
    rw [if_pos ⟨ha0, h255⟩]

/-- Witness for C6 at `(51, 153, 204, 85)`. -/
theorem preserve_eq_multiply_witness :
    MultiplyAlphaBytesPreserveColors 51 153 204 85 = MultiplyAlphaBytes 51 153 204 85 ∧
    MultiplyAlphaBytesPreserveColors 51 153 204 85 = ⟨17, 51, 68, 85⟩ ∧
    MultiplyAlphaBytes 51 153 204 85 = ⟨17, 51, 68, 85⟩ :=
  preserve_eq_multiply 51 153 204 85 (by decide) (by decide) (by decide)
    (by decide) (by decide)

/-- C9 (counterexample): the claim fails as stated — at alpha 0 the
color-preserving conversion deliberately keeps the color channels, so the
output violates the premultiplication invariant: the red channel of
`MultiplyAlphaBytesPreserveColors 42 87 197 0` is 42, its alpha is 0. -/
theorem preserve_invariant_counterexample :
    ¬ (MultiplyAlphaBytesPreserveColors 42 87 197 0).r ≤
      (MultiplyAlphaBytesPreserveColors 42 87 197 0).a := by
  decide

/-- C9 (amended): for byte inputs with nonzero alpha, each color channel
of the output of `MultiplyAlphaBytesPreserveColors` is at most the output
alpha channel. -/
theorem preserve_premultiplication_invariant (r g b a : ℕ) (hr : r < 256)
    (hg : g < 256) (hb : b < 256) (ha : a < 256) (ha0 : a ≠ 0) :
    (MultiplyAlphaBytesPreserveColors r g b a).r ≤
      (MultiplyAlphaBytesPreserveColors r g b a).a ∧
    (MultiplyAlphaBytesPreserveColors r g b a).g ≤
      (MultiplyAlphaBytesPreserveColors r g b a).a ∧
    (MultiplyAlphaBytesPreserveColors r g b a).b ≤
      (MultiplyAlphaBytesPreserveColors r g b a).a := by
  by_cases h255 : a = 0xff
  · subst h255
    unfold MultiplyAlphaBytesPreserveColors
    rw [if_neg (by simp)]
    dsimp only
    omega
  · unfold MultiplyAlphaBytesPreserveColors
    rw [if_pos ⟨ha0, h255⟩]
    dsimp only
    rw [alpha_widen_id ha, lor_double hr, lor_double hg, lor_double hb]
    simp only [Nat.shiftRight_eq_div_pow]
    exact ⟨chan_le a r hr ha, chan_le a g hg ha, chan_le a b hb ha⟩

/-- Witness for the amended C9 at `(42, 87, 197, 85)`. -/
theorem preserve_premultiplication_invariant_witness :
    (MultiplyAlphaBytesPreserveColors 42 87 197 85).r ≤
      (MultiplyAlphaBytesPreserveColors 42 87 197 85).a ∧
    (MultiplyAlphaBytesPreserveColors 42 87 197 85).g ≤
      (MultiplyAlphaBytesPreserveColors 42 87 197 85).a ∧
    (MultiplyAlphaBytesPreserveColors 42 87 197 85).b ≤
      (MultiplyAlphaBytesPreserveColors 42 87 197 85).a :=
  preserve_premultiplication_invariant 42 87 197 85 (by decide) (by decide)
    (by decide) (by decide) (by decide)

/-! ## Buffer-copy lemmas (C7) -/

/-- Point characterization of `List.set` through `getD`. -/
theorem getD_set (l : List ℕ) (n d v : ℕ) :
    (l.set n v).getD d 0 = if n = d ∧ n < l.length then v else l.getD d 0 := by
  induction l generalizing n d with
  | nil => simp
  | cons a l ih =>
    cases n with
    | zero =>
      cases d with
      | zero => simp
      | succ d => simp
    | succ n =>
      cases d with
      | zero => simp
      | succ d =>
        simp only [List.set_cons_succ, List.getD_cons_succ, ih, List.length_cons]
        by_cases h : n = d ∧ n < l.length
        · rw [if_pos h, if_pos ⟨by omega, by omega⟩]
        · rw [if_neg h, if_neg (by omega)]

/-- `copyBytes` keeps the destination length. -/
theorem copyBytes_length (iPix : List ℕ) :
    ∀ k oPix oIdx iIdx, (copyBytes oPix oIdx iPix iIdx k).length = oPix.length := by
  intro k
  induction k with
  | zero => intro oPix oIdx iIdx; rfl
  | succ k ih =>
    intro oPix oIdx iIdx
    rw [copyBytes, ih, List.length_set]

/-- Point characterization of one row copy: bytes inside the window
`[oIdx, oIdx+k)` (and inside the buffer) come from `iPix`, all others are
untouched. -/
theorem copyBytes_getD (iPix : List ℕ) :
    ∀ k oPix oIdx iIdx d,
      (copyBytes oPix oIdx iPix iIdx k).getD d 0 =
        if oIdx ≤ d ∧ d < oIdx + k ∧ d < oPix.length then
          iPix.getD (iIdx + (d - oIdx)) 0
        else
          oPix.getD d 0 := by
  intro k
  induction k with
  | zero =>
    intro oPix oIdx iIdx d
    rw [copyBytes, if_neg (by omega)]
  | succ k ih =>
    intro oPix oIdx iIdx d
    rw [copyBytes, ih, List.length_set, getD_set]
    by_cases h1 : oIdx + 1 ≤ d ∧ d < oIdx + 1 + k ∧ d < oPix.length
    · rw [if_pos h1, if_pos (by omega),
        show iIdx + 1 + (d - (oIdx + 1)) = iIdx + (d - oIdx) by omega]
    · rw [if_neg h1]
      by_cases h2 : oIdx = d ∧ oIdx < oPix.length
      · rw [if_pos h2, if_pos (by omega), show iIdx + (d - oIdx) = iIdx by omega]
      · rw [if_neg h2, if_neg (by omega)]

/-- Invariant of the `CopyImageLines` loop: starting at offsets
`oIdx`/`iIdx` with `R` source rows remaining, each destination window
`[oIdx + q*oStride, +lower)` receives the corresponding source row bytes
and every other destination byte keeps its prior value. -/
theorem linesGo_spec (iPix : List ℕ) (oStride iStride lower : ℕ) (hst : 0 < iStride)
    (hlo : lower ≤ oStride) :
    ∀ R oPix oIdx iIdx, iPix.length = iIdx + R * iStride →
      oIdx + R * oStride ≤ oPix.length →
      ((linesGo oPix oStride iPix iStride lower oIdx iIdx hst).length = oPix.length ∧
       (∀ q j, q < R → j < lower →
         (linesGo oPix oStride iPix iStride lower oIdx iIdx hst).getD (oIdx + q * oStride + j) 0 =
           iPix.getD (iIdx + q * iStride + j) 0) ∧
       (∀ d, (∀ q, q < R → ¬(oIdx + q * oStride ≤ d ∧ d < oIdx + q * oStride + lower)) →
         (linesGo oPix oStride iPix iStride lower oIdx iIdx hst).getD d 0 = oPix.getD d 0)) := by
  intro R
  induction R with
  | zero =>
    intro oPix oIdx iIdx hlen hroom
    rw [linesGo, dif_neg (by omega)]
    exact ⟨rfl, fun q j hq _ => absurd hq (by omega), fun d _ => rfl⟩
  | succ R ih =>
    intro oPix oIdx iIdx hlen hroom
    have hlen2 : iPix.length = iIdx + R * iStride + iStride := by rw [hlen]; ring
    rw [linesGo, dif_pos (by omega)]
    have hlen' : iPix.length = (iIdx + iStride) + R * iStride := by
      rw [hlen]; ring
    have hroom' : (oIdx + oStride) + R * oStride ≤
        (copyBytes oPix oIdx iPix iIdx lower).length := by
      rw [copyBytes_length]
      have : oIdx + (R + 1) * oStride = (oIdx + oStride) + R * oStride := by ring
      omega
    obtain ⟨ihlen, ihcopy, ihout⟩ := ih (copyBytes oPix oIdx iPix iIdx lower)
      (oIdx + oStride) (iIdx + iStride) hlen' hroom'
    have hRoom1 : oIdx + oStride ≤ oPix.length := by
      have : oIdx + (R + 1) * oStride = oIdx + oStride + R * oStride := by ring
      omega
    refine ⟨by rw [ihlen, copyBytes_length], ?_, ?_⟩
    · intro q j hq hj
      cases q with
      | zero =>
        have hd : oIdx + 0 * oStride + j = oIdx + j := by ring
        rw [hd]
        have hout0 : ∀ q, q < R →
            ¬(oIdx + oStride + q * oStride ≤ oIdx + j ∧
              oIdx + j < oIdx + oStride + q * oStride + lower) := by
          intro q _
          omega
        rw [ihout (oIdx + j) hout0, copyBytes_getD,
          if_pos ⟨by omega, by omega, by omega⟩,
          show iIdx + (oIdx + j - oIdx) = iIdx + 0 * iStride + j by omega]
      | succ q =>
        have hd : oIdx + (q + 1) * oStride + j = (oIdx + oStride) + q * oStride + j := by ring
        have hs : iIdx + (q + 1) * iStride + j = (iIdx + iStride) + q * iStride + j := by ring
        rw [hd, hs]
        exact ihcopy q j (by omega) hj
    · intro d hd
      have h0 := hd 0 (by omega)
      have hout0 : ∀ q, q < R →
          ¬(oIdx + oStride + q * oStride ≤ d ∧ d < oIdx + oStride + q * oStride + lower) := by
        intro q hq
        have := hd (q + 1) (by omega)
        have he : oIdx + (q + 1) * oStride = oIdx + oStride + q * oStride := by ring
        omega
      rw [ihout d hout0, copyBytes_getD, if_neg (by omega)]

/-- C7: for a source buffer of `R` full rows of `iStride` bytes and a
destination with room for `R` rows of `oStride` bytes, `CopyImageLines`
copies exactly `Min oStride iStride` bytes of each source row into the
corresponding destination row (source row `q` at offset `q*iStride`,
destination row `q` at offset `q*oStride`), and every destination byte
outside those windows keeps its prior value. -/
theorem copyImageLines_rows (oPix iPix : List ℕ) (oStride iStride R : ℕ)
    (hst : 0 < iStride) (hlen : iPix.length = R * iStride)
    (hroom : R * oStride ≤ oPix.length) :
    (CopyImageLines oPix oStride iPix iStride).length = oPix.length ∧
    (∀ q j, q < R → j < Min oStride iStride →
      (CopyImageLines oPix oStride iPix iStride).getD (q * oStride + j) 0 =
        iPix.getD (q * iStride + j) 0) ∧
    (∀ d, (∀ q, q < R → ¬(q * oStride ≤ d ∧ d < q * oStride + Min oStride iStride)) →
      (CopyImageLines oPix oStride iPix iStride).getD d 0 = oPix.getD d 0) := by
  have hlo : Min oStride iStride ≤ oStride := by unfold Min; split <;> omega
  unfold CopyImageLines
  rw [dif_pos hst]
  obtain ⟨h1, h2, h3⟩ := linesGo_spec iPix oStride iStride (Min oStride iStride)
    hst hlo R oPix 0 0 (by omega) (by omega)
  refine ⟨h1, ?_, ?_⟩
  · intro q j hq hj
    have := h2 q j hq hj
    rw [Nat.zero_add, Nat.zero_add] at this
    exact this
  · intro d hd
    apply h3
    intro q hq
    have := hd q hq
    omega

/-- Witness for C7: the spec's concrete vector — 2 source rows of stride
8, destination of stride 6 (length 14, pre-filled with the sentinel 9).
Row 1 byte 0 of the destination (index 6) receives source byte 8; the
destination bytes beyond the two windows (e.g. index 13) keep the
sentinel. -/
theorem copyImageLines_rows_witness :
    (CopyImageLines (List.replicate 14 9) 6
      [1, 2, 3, 4, 5, 6, 7, 8, 11, 12, 13, 14, 15, 16, 17, 18] 8).getD 6 0 = 11 ∧
    (CopyImageLines (List.replicate 14 9) 6
      [1, 2, 3, 4, 5, 6, 7, 8, 11, 12, 13, 14, 15, 16, 17, 18] 8).getD 13 0 = 9 := by
  have h := copyImageLines_rows (List.replicate 14 9)
    [1, 2, 3, 4, 5, 6, 7, 8, 11, 12, 13, 14, 15, 16, 17, 18] 6 8 2
    (by decide) (by decide) (by decide)
  constructor
  · have h2 := h.2.1 1 0 (by decide) (by decide)
    simpa using h2
  · have h3 := h.2.2 13 (by decide)
    simpa using h3

/-- C8: for genuine (non-nil) images, `SlowImageCopy` returns normally,
and its error is non-nil exactly when the destination is none of
`*image.RGBA`, `*image.NRGBA`, `*ebiten.Image`; in the error case the
destination is returned untouched (no pixel written). -/
theorem slowImageCopy_error_iff (oImg iImg : Image)
    (hi : iImg ≠ .nrgbaNil) (ho : oImg ≠ .nrgbaNil) :
    ∃ res err, SlowImageCopy oImg iImg = some (res, err) ∧
      (err.isSome = true ↔ oImg.isOtherKind = true) ∧
      (oImg.isOtherKind = true → res = oImg) := by
  cases iImg <;> cases oImg <;>
    first
      | exact absurd rfl hi
      | exact absurd rfl ho
      | exact ⟨_, _, rfl, by simp [Image.isOtherKind], by simp [Image.isOtherKind]⟩

/-- Witness for C8: a 1×1 RGBA source and a destination that is none of
the three writable kinds. -/
theorem slowImageCopy_error_iff_witness :
    ∃ res err,
      SlowImageCopy (Image.other 0 0 1 1 (fun _ _ => Colr.genericC 0 0 0 0))
        (Image.rgba ⟨0, 0, 1, 1, 4, [1, 2, 3, 4]⟩) = some (res, err) ∧
      (err.isSome = true ↔
        (Image.other 0 0 1 1 (fun _ _ => Colr.genericC 0 0 0 0)).isOtherKind = true) ∧
      ((Image.other 0 0 1 1 (fun _ _ => Colr.genericC 0 0 0 0)).isOtherKind = true →
        res = Image.other 0 0 1 1 (fun _ _ => Colr.genericC 0 0 0 0)) :=
  slowImageCopy_error_iff (Image.other 0 0 1 1 (fun _ _ => Colr.genericC 0 0 0 0))
    (Image.rgba ⟨0, 0, 1, 1, 4, [1, 2, 3, 4]⟩)
    (fun h => Image.noConfusion h) (fun h => Image.noConfusion h)

/-- C4 (failing input): on every image whose dynamic type is none of the
three known kinds, `CopyImage` reaches the fallback arm, which passes the
nil `*image.NRGBA` bound by the failed type assertion to `SlowImageCopy`
instead of the source image; the nil bounds query panics, so `CopyImage`
never produces the claimed filled copy. -/
theorem copyImage_other_panics (minX minY : ℤ) (w h : ℕ)
    (atF : ℤ → ℤ → Colr) (m : Bool) :
    CopyImage (.other minX minY w h atF) m = none :=
  rfl

/-- C10: `ToNRGBA` on the alpha-only color kinds forces the color channels
to 0xFF and takes alpha from the source (16-bit variant shifted down); at
alpha 0x80 the result is `(0xFF, 0xFF, 0xFF, 0x80)`. -/
theorem toNRGBA_alpha_only :
    (∀ a : ℕ, ToNRGBA (.alpha a) = some ⟨0xff, 0xff, 0xff, a⟩) ∧
    (∀ a : ℕ, ToNRGBA (.alpha16 a) = some ⟨0xff, 0xff, 0xff, (a >>> 8) % 256⟩) ∧
    ToNRGBA (.alpha 0x80) = some ⟨0xff, 0xff, 0xff, 0x80⟩ ∧
    ToNRGBA (.alpha16 0x8000) = some ⟨0xff, 0xff, 0xff, 0x80⟩ :=
  ⟨fun _ => rfl, fun _ => rfl, by decide, by decide⟩

end Frostutil
